import Mathlib

/-!
Verification of the terminal-wakatime command classifier, heartbeat gate and
project detector (`pkg/tracker/tracker.go`, `pkg/monitor/monitor.go`,
`pkg/config/config.go`).

The Go code is shallowly embedded as pure Lean functions.  Filesystem and
subprocess effects (`os.Stat`, reading a file's line count, `git rev-parse`,
`git diff --numstat`) are modelled by an explicit environment record `Env` of
oracles, one per effectful helper, so that every classifier function becomes a
pure function of the command text, the working directory, the configuration
and the environment.  Wall-clock time (`time.Now`, `time.Since`) is passed
explicitly as an integer number of nanoseconds, matching Go's
`time.Duration`/`time.Time` arithmetic.

Go library functions used by the tracker (`strings.Fields`, `filepath.Base`,
`filepath.Clean`, `filepath.Join`, `filepath.Dir`, `filepath.Ext`,
`regexp` matching for the fixed editor and remote-connection patterns) are
reimplemented here following the Go standard-library algorithms (Unix rules;
the commands under analysis are ASCII, so the ASCII fragment of
`unicode.IsSpace` and `strings.ToLower` is modelled).
-/

namespace TerminalWakatime

/-! ## Go string and path helpers -/

/-- ASCII fragment of Go `unicode.IsSpace`, as used by `strings.Fields`. -/
def goIsSpace (c : Char) : Bool :=
  c = ' ' || c = '\t' || c = '\n' || c = '\x0b' || c = '\x0c' || c = '\r'

/-- Splits a character list on separators chosen by `p`, dropping empty
fields.  `acc` holds the (reversed) characters of the field being read. -/
def splitDrop (p : Char → Bool) : List Char → List Char → List (List Char)
  | [], acc => if acc.isEmpty then [] else [acc.reverse]
  | c :: cs, acc =>
    if p c then
      if acc.isEmpty then splitDrop p cs [] else acc.reverse :: splitDrop p cs []
    else splitDrop p cs (c :: acc)

/-- Go `strings.Fields`: whitespace-separated tokens of a command line. -/
def goFields (s : String) : List String :=
  (splitDrop goIsSpace s.toList []).map String.mk

/-- Path segments of a slash-separated path (empty segments dropped),
the decomposition underlying Go `path/filepath.Clean` on Unix. -/
def pathSegs (cs : List Char) : List (List Char) :=
  splitDrop (fun c => c = '/') cs []

/-- Effect of one `..` element on the (reversed) output stack of
`filepath.Clean`: pop a previous element when possible, never rise above the
root of a rooted path, and keep leading `..`s of a relative path. -/
def dotdotStep (rooted : Bool) (s : List Char) (out : List (List Char)) : List (List Char) :=
  match out with
  | o :: out' => if o = ['.', '.'] then s :: o :: out' else out'
  | [] => if rooted then [] else [s]

/-- Element processing loop of Go `filepath.Clean`: `.` is dropped, `..` is
handled by `dotdotStep`, anything else is pushed. `out` is the reversed
output stack. -/
def cleanSegs (rooted : Bool) : List (List Char) → List (List Char) → List (List Char)
  | [], out => out.reverse
  | s :: rest, out =>
    if s = ['.'] then cleanSegs rooted rest out
    else if s = ['.', '.'] then cleanSegs rooted rest (dotdotStep rooted s out)
    else cleanSegs rooted rest (s :: out)

/-- Interleaves `/` between path segments. -/
def joinSegs : List (List Char) → List Char
  | [] => []
  | [s] => s
  | s :: rest => s ++ '/' :: joinSegs rest

/-- Go `filepath.Clean` (Unix): shortest lexically-equivalent path. -/
def goClean (s : String) : String :=
  match s.toList with
  | [] => "."
  | c :: cs =>
    let rooted := c = '/'
    let out := cleanSegs rooted (pathSegs (c :: cs)) []
    if rooted then String.mk ('/' :: joinSegs out)
    else if out.isEmpty then "." else String.mk (joinSegs out)

/-- Go `filepath.Join` restricted to two elements (the only arity the tracker
uses): empty elements are skipped and the result is cleaned; all-empty input
yields the empty string, uncleaned. -/
def goJoin (a b : String) : String :=
  if a ≠ "" then goClean (a ++ "/" ++ b)
  else if b ≠ "" then goClean b
  else ""

/-- Go `filepath.Base` (Unix): last element of the path after dropping
trailing slashes; `"."` for the empty path, `"/"` for all-slash paths.
Computed over the reversed character list: drop the trailing slashes, then
take the final path element. -/
def goBase (s : String) : String :=
  match s.toList with
  | [] => "."
  | c :: cs =>
    match (c :: cs).reverse.dropWhile (fun d => d = '/') with
    | [] => "/"
    | r :: rs => String.mk ((r :: rs).takeWhile (fun d => d ≠ '/')).reverse

/-- Go `filepath.Dir` (Unix): `Clean` of everything up to and including the
final slash, `"."` when the path contains no slash. -/
def goDir (s : String) : String :=
  goClean (String.mk (s.toList.reverse.dropWhile (fun d => d ≠ '/')).reverse)

/-- Go `filepath.IsAbs` (Unix). -/
def goIsAbs (s : String) : Bool :=
  match s.toList with
  | '/' :: _ => true
  | _ => false

/-- Go `strings.HasPrefix`. -/
def goHasPrefix (s pre : String) : Bool :=
  pre.toList.isPrefixOf s.toList

/-- ASCII fragment of Go `strings.ToLower` on one character. -/
def charToLower (c : Char) : Char :=
  if 'A' ≤ c && c ≤ 'Z' then Char.ofNat (c.toNat + 32) else c

/-- ASCII fragment of Go `strings.ToLower`. -/
def goToLower (s : String) : String :=
  String.mk (s.toList.map charToLower)

/-- Go `filepath.Ext`: suffix beginning at the final dot in the final
slash-separated element; empty when there is no dot. -/
def goExt (s : String) : String :=
  let r := s.toList.reverse
  let pre := r.takeWhile (fun c => c ≠ '/' && c ≠ '.')
  match r.drop pre.length with
  | '.' :: _ => String.mk ('.' :: pre.reverse)
  | _ => ""

/-! ## Data model (`pkg/tracker/tracker.go`, `pkg/config/config.go`)

Go `time.Duration` is an integer number of nanoseconds and `time.Time`
arithmetic (`time.Since`, comparisons) is integer arithmetic on instants, so
instants and durations are both modelled as `Int` nanoseconds. -/

/-- One nanosecond, the unit of Go `time.Duration`. -/
def nanosecond : Int := 1

/-- Go `time.Second`. -/
def second : Int := 1000000000

/-- Go `time.Minute`. -/
def minute : Int := 60 * second

/-- Constant `config.WakaTimeInterval = 2 * time.Minute` (config.go): the
fixed, non-configurable heartbeat interval. -/
def wakaTimeInterval : Int := 2 * minute

/-- Constant `config.DefaultMinCommandTime = 2 * time.Second` (config.go). -/
def defaultMinCommandTime : Int := 2 * second

/-- The fields of `config.Config` the tracker and monitor read.  `Project` is
the explicit project override (empty when unset); `MinCommandTime` is the
minimum duration for `Monitor.ProcessCommand` (default 2 seconds). -/
structure Config where
  project : String := ""
  minCommandTime : Int := defaultMinCommandTime

/-- A `config.Config` built with all defaults relevant here. -/
def defaultConfig : Config := {}

/-- Go `tracker.ActivityType` (the strings "file"/"app"/"domain"). -/
inductive ActivityType where
  | file
  | app
  | domain
deriving DecidableEq

/-- Go `tracker.Activity`.  Nil pointers of the optional metric fields are
`none`; Go zero values are the field defaults. -/
structure Activity where
  entity : String
  entityType : ActivityType
  category : String
  language : String := ""
  project : String := ""
  branch : String := ""
  isWrite : Bool := false
  timestamp : Int := 0
  lines : Option Nat := none
  lineNo : Option Nat := none
  cursorPos : Option Nat := none
  lineAdditions : Option Int := none
  lineDeletions : Option Int := none
deriving DecidableEq

/-- Go `tracker.GitFileChange` (parsed line of `git diff --numstat`). -/
structure GitFileChange where
  filePath : String
  lineAdditions : Int
  lineDeletions : Int
deriving DecidableEq

/-- Result of Go `os.Stat`: success (with `FileInfo.IsDir`), an error for
which `os.IsNotExist` is true, or any other error. -/
inductive GoStat where
  | ok (isDir : Bool)
  | errNotExist
  | errOther
deriving DecidableEq

/-- Environment of filesystem/subprocess oracles, one per effectful helper in
tracker.go: `stat` models `os.Stat`; `fileLines` models `getFileLines`
(number of lines of a readable file, `none` on any error); `gitBranch` models
`getGitBranch` (current branch of a directory, `""` on any failure);
`gitChangedFiles` models `getGitChangedFiles` (the parsed `git diff --stat
HEAD~1 HEAD --numstat` output for a directory, `none` when the git command
fails). -/
structure Env where
  stat : String → GoStat
  fileLines : String → Option Nat
  gitBranch : String → String
  gitChangedFiles : String → Option (List GitFileChange)

/-- Go `err == nil` for a `GoStat`. -/
def statExists : GoStat → Bool
  | .ok _ => true
  | _ => false

/-- The acceptance test `err == nil || !os.IsNotExist(err)` used on editor
file arguments (tracker.go:300): true unless `os.Stat` failed with a
not-exist error. -/
def statAccepts : GoStat → Bool
  | .errNotExist => false
  | _ => true

/-- Go `isDir` (tracker.go): `err == nil && info.IsDir()`. -/
def isDirE (env : Env) (path : String) : Bool :=
  match env.stat path with
  | .ok d => d
  | _ => false

/-! ## Fixed lookup tables of the classifier -/

/-- The word alternatives of the seven `editorPatterns` regular expressions
(tracker.go:52): each pattern is a `\b(w1|...|wn)\b` word-boundary match. -/
def editorWords : List String :=
  ["vi", "vim", "nvim", "emacs", "nano", "code", "subl", "sublime_text",
   "atom", "idea", "intellij", "pycharm", "webstorm"]

/-- Word characters of the regexp `\b` boundary (`\w = [0-9A-Za-z_]`). -/
def isWordChar (c : Char) : Bool :=
  ('a' ≤ c && c ≤ 'z') || ('A' ≤ c && c ≤ 'Z') || ('0' ≤ c && c ≤ '9') || c = '_'

/-- Whether `w` occurs in `s` delimited by word boundaries on both sides.
`prev` is the character preceding the current position (none at the start).
All editor words consist of word characters, so `\bw\b` holds at a position
exactly when the neighbouring characters (if any) are non-word. -/
def containsWord (w : List Char) : Option Char → List Char → Bool
  | prev, s =>
    (w.isPrefixOf s
      && (match prev with | none => true | some c => !isWordChar c)
      && (match s.drop w.length with | [] => true | c :: _ => !isWordChar c))
    || match s with
       | [] => false
       | c :: t => containsWord w (some c) t

/-- Go `Tracker.isEditor`: whether any editor pattern matches the command
name. -/
def isEditor (cmdName : String) : Bool :=
  editorWords.any fun w => containsWord w.toList none cmdName.toList

/-- The `codingApps` name-to-category table (tracker.go:63), in source
order. -/
def codingApps : List (String × String) :=
  [("amp", "coding"), ("claude", "coding"), ("cursor", "coding"),
   ("node", "coding"), ("python", "coding"), ("go", "coding"),
   ("java", "coding"), ("rust", "coding"), ("php", "coding"),
   ("ruby", "coding"), ("psql", "coding"), ("mysql", "coding"),
   ("mongo", "coding"), ("redis", "coding"), ("docker", "building"),
   ("kubectl", "coding"), ("helm", "coding"), ("make", "building"),
   ("cmake", "building"), ("ninja", "building"), ("npm", "building"),
   ("yarn", "building"), ("pip", "building"), ("cargo", "building"),
   ("mvn", "building"), ("gradle", "building"), ("git", "code reviewing")]

/-- Go map lookup `codingApps[cmdName]` (key sets are distinct, so the
`map` vs association-list difference is immaterial). -/
def lookupCodingApp (cmdName : String) : Option String :=
  codingApps.lookup cmdName

/-- Go `Tracker.isBuildTestCommand`'s fixed list (tracker.go:779). -/
def buildTestCommands : List String :=
  ["npm", "yarn", "pnpm", "bun",
   "cargo", "go", "mvn", "gradle",
   "make", "cmake", "ninja",
   "python", "pytest", "jest", "mocha",
   "tsc", "webpack", "vite", "rollup",
   "docker", "docker-compose",
   "terraform", "ansible"]

/-- Go `Tracker.isBuildTestCommand`. -/
def isBuildTestCommand (cmdName : String) : Bool :=
  buildTestCommands.any fun cmd => cmd = cmdName

/-- Go `isTestCommand` (tracker.go:877). -/
def isTestCommand (subcommand : String) : Bool :=
  ["test", "check", "verify", "spec", "jest", "mocha", "pytest"].any
    fun cmd => cmd = subcommand

/-- Go `isBuildCommand` (tracker.go:888). -/
def isBuildCommand (subcommand : String) : Bool :=
  ["build", "compile", "install", "deploy", "publish", "dist", "bundle"].any
    fun cmd => cmd = subcommand

/-- The `projectFiles` marker list of `detectProject` (tracker.go:361). -/
def projectFiles : List String :=
  [".git", "package.json", "go.mod", "Cargo.toml", "pom.xml", "build.gradle",
   "requirements.txt", "Pipfile", "composer.json", "Gemfile", "mix.exs"]

/-- The `languageFiles` marker table of `detectProjectLanguage`
(tracker.go:901).  Go iterates this map in unspecified order; source textual
order is used here (no claim depends on the order). -/
def languageFiles : List (String × String) :=
  [("go.mod", "Go"), ("package.json", "JavaScript"), ("Cargo.toml", "Rust"),
   ("pom.xml", "Java"), ("requirements.txt", "Python"), ("setup.py", "Python"),
   ("Gemfile", "Ruby"), ("composer.json", "PHP")]

/-! ## Language, project and remote-connection detection -/

/-- Go `detectLanguage` (tracker.go:486): pure function of the lowercased
extension, with special-cased basenames in the default branch. -/
def detectLanguage (filePath : String) : String :=
  match goToLower (goExt filePath) with
  | ".go" => "Go"
  | ".js" | ".jsx" => "JavaScript"
  | ".ts" | ".tsx" => "TypeScript"
  | ".py" => "Python"
  | ".rs" => "Rust"
  | ".java" => "Java"
  | ".c" => "C"
  | ".cpp" | ".cc" | ".cxx" => "C++"
  | ".h" | ".hpp" => "C Header"
  | ".php" => "PHP"
  | ".rb" => "Ruby"
  | ".sh" | ".bash" | ".zsh" => "Shell"
  | ".md" | ".markdown" => "Markdown"
  | ".html" | ".htm" => "HTML"
  | ".css" => "CSS"
  | ".scss" | ".sass" => "SCSS"
  | ".json" => "JSON"
  | ".yaml" | ".yml" => "YAML"
  | ".xml" => "XML"
  | ".sql" => "SQL"
  | ".dockerfile" => "Docker"
  | ".toml" => "TOML"
  | ".ini" => "INI"
  | _ =>
    match goToLower (goBase filePath) with
    | "dockerfile" => "Docker"
    | "makefile" => "Makefile"
    | "go.mod" | "go.sum" => "Go Module"
    | "package.json" | "package-lock.json" => "JSON"
    | "cargo.toml" | "cargo.lock" => "TOML"
    | _ => ""

/-- Whether some project marker exists directly in `dir`
(the inner loop of `detectProject`). -/
def hasProjectMarker (env : Env) (dir : String) : Bool :=
  projectFiles.any fun file => statExists (env.stat (goJoin dir file))

/-- The unbounded `for` walk of `detectProject` (tracker.go:375): check the
current directory for markers, stop when `Dir` reaches its fixed point.  The
Go loop terminates because `filepath.Dir` strictly shortens any path of
length at least two and sends length-one relative paths to the fixed point
`"."`; the fuel passed by `detectProject` (`length + 3`) therefore bounds the
iteration count, and the out-of-fuel branch is unreachable. -/
def detectProjectLoop (env : Env) : Nat → String → Option String
  | 0, _ => none
  | fuel + 1, dir =>
    if hasProjectMarker env dir then some (goBase dir)
    else
      let parent := goDir dir
      if parent = dir then none
      else detectProjectLoop env fuel parent

/-- Go `Tracker.detectProject` (tracker.go:350). -/
def detectProject (cfg : Config) (env : Env) (filePath : String) : String :=
  if cfg.project ≠ "" then cfg.project
  else
    let dir := if isDirE env filePath then filePath else goDir filePath
    match detectProjectLoop env (dir.length + 3) dir with
    | some name => name
    | none => goBase filePath

/-- Go `Tracker.detectProjectLanguage` (tracker.go:899). -/
def detectProjectLanguage (env : Env) (workingDir : String) : String :=
  match languageFiles.find? (fun p => statExists (env.stat (goJoin workingDir p.1))) with
  | some p => p.2
  | none => ""

/-! ## The remote-connection regular expressions

The four `remotePatterns` (tracker.go:94) are fixed regular expressions of a
narrow shape: literals, greedy `\s+`, greedy `.*`, a greedy optional group
`(?:.*@)?`, and one mandatory capture group `([^...]+)`.  They are matched
here with Go's leftmost-first (backtracking-preference) submatch semantics:
earliest start position wins, greedy pieces prefer the longest extent, the
optional group prefers to participate. -/

/-- The regular-expression elements needed by `remotePatterns`. -/
inductive RE where
  | lit : List Char → RE
  | plusCls : (Char → Bool) → RE
  | starCls : (Char → Bool) → RE
  | optStarThen : (Char → Bool) → Char → RE
  | capPlus : (Char → Bool) → RE

/-- Regexp `\s` (`== [\t\n\f\r ]`). -/
def reSpace (c : Char) : Bool :=
  c = '\t' || c = '\n' || c = '\x0c' || c = '\r' || c = ' '

/-- Regexp `.` (any character but newline). -/
def reAny (c : Char) : Bool :=
  c ≠ '\n'

/-- Matches a pattern against a prefix of `input` (trailing input is
unconstrained), returning the text of the capture group on success.
Greedy pieces backtrack from the longest extent, giving Go's leftmost-first
submatch semantics once combined with `findCapture`'s start-position scan. -/
def matchElems : List RE → List Char → Option (List Char)
  | [], _ => some []
  | .lit w :: rest, input =>
    if w.isPrefixOf input then matchElems rest (input.drop w.length) else none
  | .plusCls p :: rest, input =>
    let m := (input.takeWhile p).length
    ((List.range m).reverse.map (fun k => k + 1)).findSome? fun k =>
      matchElems rest (input.drop k)
  | .starCls p :: rest, input =>
    let m := (input.takeWhile p).length
    ((List.range (m + 1)).reverse).findSome? fun k =>
      matchElems rest (input.drop k)
  | .optStarThen p c :: rest, input =>
    let m := (input.takeWhile p).length
    let withGroup := ((List.range (m + 1)).reverse).findSome? fun k =>
      match input.drop k with
      | c' :: t => if c' = c then matchElems rest t else none
      | [] => none
    match withGroup with
    | some r => some r
    | none => matchElems rest input
  | .capPlus p :: rest, input =>
    let m := (input.takeWhile p).length
    ((List.range m).reverse.map (fun k => k + 1)).findSome? fun k =>
      (matchElems rest (input.drop k)).map fun _ => input.take k

/-- Scans start positions left to right (leftmost match wins). -/
def findCapture (pat : List RE) : List Char → Option (List Char)
  | [] => matchElems pat []
  | c :: t =>
    match matchElems pat (c :: t) with
    | some r => some r
    | none => findCapture pat t

/-- Regexp `ssh\s+(?:.*@)?([^@\s]+)`. -/
def sshPattern : List RE :=
  [.lit "ssh".toList, .plusCls reSpace, .optStarThen reAny '@',
   .capPlus fun c => c ≠ '@' && !reSpace c]

/-- Regexp `<client>\s+.*-h\s+([^\s]+)` for `mysql`, `psql`, `redis-cli`. -/
def hostFlagPattern (client : String) : List RE :=
  [.lit client.toList, .plusCls reSpace, .starCls reAny,
   .lit ['-', 'h'], .plusCls reSpace, .capPlus fun c => !reSpace c]

/-- The `remotePatterns` list (tracker.go:94), in source order. -/
def remotePatterns : List (List RE) :=
  [sshPattern, hostFlagPattern "mysql", hostFlagPattern "psql",
   hostFlagPattern "redis-cli"]

/-- Go `Tracker.parseRemoteConnection` (tracker.go:340): first pattern with a
submatch wins; `""` when none matches (the mandatory nonempty capture group
makes `len(matches) > 1` equivalent to a successful match). -/
def parseRemoteConnection (command : String) : String :=
  match remotePatterns.findSome? (fun pat => findCapture pat command.toList) with
  | some capture => String.mk capture
  | none => ""

/-! ## The command classifier (`parseCommandToSingleActivity` and handlers) -/

/-- Resolution of a command argument against the working directory
(`if !filepath.IsAbs(filePath) { filePath = filepath.Join(workingDir, filePath) }`,
tracker.go:295 and tracker.go:185). -/
def resolvePath (workingDir arg : String) : String :=
  if goIsAbs arg then arg else goJoin workingDir arg

/-- The argument loop of `handleEditorCommandSingle` (tracker.go:285):
one left-to-right pass over the arguments accumulating the accepted-file
count, the first accepted (resolved) path with its language, and the total
line count.  An argument is skipped when it is a flag, and accepted when
`os.Stat` of the resolved path does not fail with a not-exist error. -/
def editorScan (env : Env) (workingDir : String) :
    List String → Nat → String → String → Nat → Nat × String × String × Nat
  | [], fileCount, primaryFile, primaryLanguage, totalLines =>
    (fileCount, primaryFile, primaryLanguage, totalLines)
  | arg :: rest, fileCount, primaryFile, primaryLanguage, totalLines =>
    if goHasPrefix arg "-" then
      editorScan env workingDir rest fileCount primaryFile primaryLanguage totalLines
    else
      let filePath := resolvePath workingDir arg
      if statAccepts (env.stat filePath) then
        let primaryFile' := if primaryFile = "" then filePath else primaryFile
        let primaryLanguage' :=
          if primaryFile = "" then detectLanguage filePath else primaryLanguage
        let totalLines' :=
          match env.fileLines filePath with
          | some n => totalLines + n
          | none => totalLines
        editorScan env workingDir rest (fileCount + 1) primaryFile' primaryLanguage' totalLines'
      else
        editorScan env workingDir rest fileCount primaryFile primaryLanguage totalLines

/-- Go `Tracker.handleEditorCommandSingle` (tracker.go:275), with the fields
slice split into its head `f0` and tail `args` (the dispatcher guarantees a
nonempty slice; `showEditorSuggestion` only writes to stderr and is omitted).
When at least one file argument was accepted the single activity describes
the first accepted file with the aggregated line count; otherwise it
describes the editor itself. -/
def handleEditorCommandSingle (cfg : Config) (env : Env) (now : Int)
    (f0 : String) (args : List String) (workingDir : String) : Activity :=
  let cmdName := goBase f0
  let scan := editorScan env workingDir args 0 "" "" 0
  let fileCount := scan.1
  let primaryFile := scan.2.1
  let primaryLanguage := scan.2.2.1
  let totalLines := scan.2.2.2
  if fileCount > 0 then
    { entity := primaryFile
      entityType := .file
      category := "coding"
      language := primaryLanguage
      project := detectProject cfg env primaryFile
      branch := env.gitBranch (goDir primaryFile)
      isWrite := true
      timestamp := now
      lines := some totalLines
      lineNo := some 1
      cursorPos := some 1 }
  else
    { entity := cmdName
      entityType := .app
      category := "coding"
      project := detectProject cfg env workingDir
      branch := env.gitBranch workingDir
      timestamp := now }

/-- The aggregation loop of `handleGitCommandSingle` (tracker.go:729): one
pass over the changed files accumulating total additions, deletions and line
counts (a file whose line count cannot be read contributes no lines). -/
def gitAggregate (env : Env) (workingDir : String) :
    List GitFileChange → Int → Int → Nat → Int × Int × Nat
  | [], totalAdditions, totalDeletions, totalLines =>
    (totalAdditions, totalDeletions, totalLines)
  | change :: rest, totalAdditions, totalDeletions, totalLines =>
    let filePath := goJoin workingDir change.filePath
    let totalLines' :=
      match env.fileLines filePath with
      | some n => totalLines + n
      | none => totalLines
    gitAggregate env workingDir rest (totalAdditions + change.lineAdditions)
      (totalDeletions + change.lineDeletions) totalLines'

/-- Go `Tracker.handleGitCommandSingle` (tracker.go:703) on the full fields
slice (head `"git"`-named token included).  `len(fields) < 2` yields the bare
`git` activity; otherwise the entity is always the privacy-safe
`"git <subcommand>"`.  For the write subcommands the line totals aggregate
`getGitChangedFiles` over the working directory and are attached even when
enumeration fails (then as zeros, mirroring the Go zero-initialised
accumulators). -/
def handleGitCommandSingle (cfg : Config) (env : Env) (now : Int)
    (fields : List String) (workingDir : String) : Activity :=
  match fields with
  | [] | [_] =>
    { entity := "git"
      entityType := .app
      category := "coding"
      project := detectProject cfg env workingDir
      branch := env.gitBranch workingDir
      timestamp := now }
  | _ :: gitSubcommand :: _ =>
    let entity := "git " ++ gitSubcommand
    if gitSubcommand = "commit" || gitSubcommand = "push" || gitSubcommand = "merge"
        || gitSubcommand = "rebase" then
      let totals :=
        match env.gitChangedFiles workingDir with
        | some changes =>
          if changes.length > 0 then gitAggregate env workingDir changes 0 0 0
          else (0, 0, 0)
        | none => (0, 0, 0)
      { entity := entity
        entityType := .app
        category := "coding"
        project := detectProject cfg env workingDir
        branch := env.gitBranch workingDir
        isWrite := true
        timestamp := now
        lines := some totals.2.2
        lineAdditions := some totals.1
        lineDeletions := some totals.2.1 }
    else if gitSubcommand = "status" || gitSubcommand = "log" || gitSubcommand = "diff"
        || gitSubcommand = "show" then
      { entity := entity
        entityType := .app
        category := "coding"
        project := detectProject cfg env workingDir
        branch := env.gitBranch workingDir
        isWrite := false
        timestamp := now }
    else
      { entity := entity
        entityType := .app
        category := "coding"
        project := detectProject cfg env workingDir
        branch := env.gitBranch workingDir
        timestamp := now }

/-- Go `Tracker.handleBuildTestCommandSingle` (tracker.go:837).  Note that
the entity is built from `fields[0]` verbatim (not its base name): the Go
function re-reads `cmdName := fields[0]` without `filepath.Base`. -/
def handleBuildTestCommandSingle (cfg : Config) (env : Env) (now : Int)
    (fields : List String) (workingDir : String) : Option Activity :=
  match fields with
  | [] => none
  | cmdName :: rest =>
    let subcommand := match rest with | [] => "" | s :: _ => s
    let entity := if subcommand ≠ "" then cmdName ++ " " ++ subcommand else cmdName
    let category :=
      if isTestCommand subcommand then "debugging"
      else if isBuildCommand subcommand then "building"
      else "coding"
    some
      { entity := entity
        entityType := .app
        category := category
        language := detectProjectLanguage env workingDir
        project := detectProject cfg env workingDir
        branch := env.gitBranch workingDir
        timestamp := now }

/-- Go `Tracker.parseCommandToSingleActivity` (tracker.go:136): tokenize,
then dispatch in order on editor, git, build/test tool, coding app, remote
connection, `cd`, and finally the catch-all App activity. -/
def parseCommandToSingleActivity (cfg : Config) (env : Env) (now : Int)
    (command workingDir : String) : Option Activity :=
  match goFields command with
  | [] => none
  | f0 :: rest =>
    let cmdName := goBase f0
    if isEditor cmdName then
      some (handleEditorCommandSingle cfg env now f0 rest workingDir)
    else if cmdName = "git" then
      some (handleGitCommandSingle cfg env now (f0 :: rest) workingDir)
    else if isBuildTestCommand cmdName then
      handleBuildTestCommandSingle cfg env now (f0 :: rest) workingDir
    else
      match lookupCodingApp cmdName with
      | some category =>
        some
          { entity := cmdName
            entityType := .app
            category := category
            project := detectProject cfg env workingDir
            branch := env.gitBranch workingDir
            timestamp := now }
      | none =>
        let domain := parseRemoteConnection command
        if domain ≠ "" then
          some
            { entity := domain
              entityType := .domain
              category := "coding"
              project := detectProject cfg env workingDir
              timestamp := now }
        else if cmdName = "cd" && !rest.isEmpty then
          let targetDir := resolvePath workingDir (rest.headD "")
          some
            { entity := targetDir
              entityType := .file
              category := "browsing"
              project := detectProject cfg env targetDir
              branch := env.gitBranch targetDir
              timestamp := now }
        else
          some
            { entity := cmdName
              entityType := .app
              category := "coding"
              project := detectProject cfg env workingDir
              branch := env.gitBranch workingDir
              timestamp := now }

/-! ## The heartbeat gate (`shouldSendHeartbeat`, `sendActivity`)

The tracker's gate state is the pair of fields `lastSentTime`/`lastSentFile`
of `Tracker`; `suggestions` only rate-limits stderr tips and is not
modelled. -/

/-- The gate state of a `Tracker` (zero value: epoch instant, empty
entity). -/
structure GateState where
  lastSentTime : Int := 0
  lastSentFile : String := ""
deriving DecidableEq

/-- Gate state of a freshly constructed `Tracker` (`NewTracker`). -/
def initialGateState : GateState := {}

/-- Go `Tracker.shouldSendHeartbeat` (tracker.go:431): send on write events,
on entity change, or when at least `config.WakaTimeInterval` has elapsed
since the last send (`time.Since(t.lastSentTime) = now - t.lastSentTime`). -/
def shouldSendHeartbeat (s : GateState) (now : Int) (activity : Activity) : Bool :=
  if activity.isWrite then true
  else if activity.entity ≠ s.lastSentFile then true
  else wakaTimeInterval ≤ now - s.lastSentTime

/-- The two ways `Tracker.sendActivity` can fail: `wakatime.EnsureInstalled`
returning an error, or `wakatime.SendHeartbeat` returning an error. -/
inductive SendErr where
  | installFailed
  | heartbeatFailed
deriving DecidableEq

/-- Go `Tracker.sendActivity` (tracker.go:393).  `installOk` is whether
`EnsureInstalled` succeeds and `sendOk` whether the `SendHeartbeat`
invocation of the external tool succeeds (both external effects).  Returns
the new gate state, the returned error, and whether `SendHeartbeat` was
invoked.  The gate state is updated only when the heartbeat was sent
successfully, and then to the activity's entity and timestamp. -/
def sendActivity (s : GateState) (now : Int) (installOk sendOk : Bool)
    (activity : Activity) : GateState × Option SendErr × Bool :=
  if !shouldSendHeartbeat s now activity then (s, none, false)
  else if !installOk then (s, some .installFailed, false)
  else if sendOk then
    ({ lastSentTime := activity.timestamp, lastSentFile := activity.entity }, none, true)
  else (s, some .heartbeatFailed, true)

/-- Go `Tracker.TrackCommand` (tracker.go:110): classify, then send when an
activity was produced. -/
def trackCommand (cfg : Config) (env : Env) (now : Int) (installOk sendOk : Bool)
    (command workingDir : String) (s : GateState) : GateState × Option SendErr × Bool :=
  match parseCommandToSingleActivity cfg env now command workingDir with
  | some activity => sendActivity s now installOk sendOk activity
  | none => (s, none, false)

/-- Go `Monitor.ProcessCommand` (monitor.go:40): `logCommand` only appends to
a debug log, then commands shorter than `config.MinCommandTime` are dropped
before the tracker is consulted. -/
def processCommand (cfg : Config) (env : Env) (now : Int) (installOk sendOk : Bool)
    (command : String) (duration : Int) (workingDir : String) (s : GateState) :
    GateState × Option SendErr × Bool :=
  if duration < cfg.minCommandTime then (s, none, false)
  else trackCommand cfg env now installOk sendOk command workingDir s

/-! ## Specification-side descriptions used to state the claims -/

/-- Specification view of the editor argument loop: the list of arguments
that are not flags and whose resolved path passes the `os.Stat` acceptance
test. -/
def editorAcceptedArgs (env : Env) (workingDir : String) (args : List String) : List String :=
  args.filter fun arg =>
    !goHasPrefix arg "-" && statAccepts (env.stat (resolvePath workingDir arg))

/-- Specification view of the `detectProject` walk: the chain of directories
visited, from the start directory up to the first `filepath.Dir` fixed
point. -/
def ancestorChain : Nat → String → List String
  | 0, _ => []
  | fuel + 1, dir =>
    dir :: (if goDir dir = dir then [] else ancestorChain fuel (goDir dir))

/-! ## Concrete environments and configurations used by witnesses -/

/-- Environment on which every effect fails: no path exists, no file is
readable, no git repository is found. -/
def envAllMissing : Env :=
  { stat := fun _ => .errNotExist
    fileLines := fun _ => none
    gitBranch := fun _ => ""
    gitChangedFiles := fun _ => none }

/-- A configuration with an explicit project override. -/
def cfgOverride : Config := { project := "p" }

/-- Environment in which exactly `/w/a.go` exists, as a 10-line file. -/
def envOneFile : Env :=
  { stat := fun path => if path = "/w/a.go" then .ok false else .errNotExist
    fileLines := fun path => if path = "/w/a.go" then some 10 else none
    gitBranch := fun _ => ""
    gitChangedFiles := fun _ => none }

/-- Environment in which the last commit changed one file with 5 added and 2
deleted lines, every file reads as 3 lines, and the current branch is
`main`. -/
def envGitOne : Env :=
  { stat := fun _ => .errNotExist
    fileLines := fun _ => some 3
    gitBranch := fun _ => "main"
    gitChangedFiles := fun _ =>
      some [{ filePath := "f.go", lineAdditions := 5, lineDeletions := 2 }] }

/-- Environment in which `/a/b` contains a `.git` directory. -/
def envMarker : Env :=
  { stat := fun path => if path = "/a/b/.git" then .ok true else .errNotExist
    fileLines := fun _ => none
    gitBranch := fun _ => ""
    gitChangedFiles := fun _ => none }

/-! ## Basic facts about the helpers -/

theorem splitDrop_mem_ne_nil (p : Char → Bool) :
    ∀ (cs acc : List Char), ∀ l ∈ splitDrop p cs acc, l ≠ [] := by
  intro cs
  induction cs with
  | nil =>
    intro acc l hl
    simp only [splitDrop] at hl
    split at hl
    · simp at hl
    · rename_i hacc
      simp only [List.mem_singleton] at hl
      subst hl
      simpa [List.isEmpty_iff] using hacc
  | cons c cs ih =>
    intro acc l hl
    simp only [splitDrop] at hl
    split at hl
    · split at hl
      · exact ih [] l hl
      · rename_i hacc
        rcases List.mem_cons.mp hl with h | h
        · subst h
          simpa [List.isEmpty_iff] using hacc
        · exact ih [] l h
    · exact ih (c :: acc) l hl

theorem goFields_mem_ne_empty (s : String) : ∀ tok ∈ goFields s, tok ≠ "" := by
  intro tok htok
  simp only [goFields, List.mem_map] at htok
  obtain ⟨l, hl, rfl⟩ := htok
  have := splitDrop_mem_ne_nil goIsSpace s.toList [] l hl
  intro h
  apply this
  simpa [String.ext_iff] using h

theorem dropWhile_head_not (p : Char → Bool) :
    ∀ l : List Char, ∀ c cs, l.dropWhile p = c :: cs → p c = false := by
  intro l
  induction l with
  | nil => intro c cs h; simp [List.dropWhile] at h
  | cons a l ih =>
    intro c cs h
    by_cases hpa : p a
    · rw [List.dropWhile_cons_of_pos hpa] at h
      exact ih c cs h
    · rw [List.dropWhile_cons_of_neg hpa] at h
      cases h
      simpa using hpa

theorem goBase_ne_empty (s : String) : goBase s ≠ "" := by
  unfold goBase
  cases hs : s.toList with
  | nil => simp
  | cons c cs =>
    simp only
    cases hstr : (c :: cs).reverse.dropWhile (fun d => d = '/') with
    | nil => simp
    | cons r rs =>
      have hr : r ≠ '/' := by simpa using dropWhile_head_not _ _ r rs hstr
      simp [String.ext_iff, List.takeWhile_cons, hr]

theorem dotdotStep_mem_ne_nil (rooted : Bool) (s : List Char) (out : List (List Char))
    (hs : s ≠ []) (hout : ∀ l ∈ out, l ≠ []) : ∀ l ∈ dotdotStep rooted s out, l ≠ [] := by
  intro l hl
  cases out with
  | nil =>
    simp only [dotdotStep] at hl
    split at hl
    · simp at hl
    · simp only [List.mem_singleton] at hl
      subst hl
      exact hs
  | cons o out' =>
    simp only [dotdotStep] at hl
    split at hl
    · rcases List.mem_cons.mp hl with h | h
      · subst h; exact hs
      · exact hout _ h
    · exact hout _ (List.mem_cons_of_mem _ hl)

theorem cleanSegs_ne_nil_mem (rooted : Bool) :
    ∀ (segs out : List (List Char)), (∀ l ∈ segs, l ≠ []) → (∀ l ∈ out, l ≠ []) →
      ∀ l ∈ cleanSegs rooted segs out, l ≠ [] := by
  intro segs
  induction segs with
  | nil =>
    intro out _ hout l hl
    simp only [cleanSegs, List.mem_reverse] at hl
    exact hout l hl
  | cons s rest ih =>
    intro out hsegs hout l hl
    have hs : s ≠ [] := hsegs s (by simp)
    have hrest : ∀ l ∈ rest, l ≠ [] := fun x hx => hsegs x (List.mem_cons_of_mem _ hx)
    simp only [cleanSegs] at hl
    split at hl
    · exact ih out hrest hout l hl
    · split at hl
      · exact ih _ hrest (dotdotStep_mem_ne_nil rooted s out hs hout) l hl
      · refine ih (s :: out) hrest ?_ l hl
        intro x hx
        rcases List.mem_cons.mp hx with h | h
        · subst h; exact hs
        · exact hout x h

theorem joinSegs_ne_nil (o : List Char) (os : List (List Char)) (ho : o ≠ []) :
    joinSegs (o :: os) ≠ [] := by
  cases os with
  | nil => simpa [joinSegs] using ho
  | cons o' os' =>
    cases o with
    | nil => exact absurd rfl ho
    | cons a as => simp [joinSegs]

theorem goClean_ne_empty (s : String) : goClean s ≠ "" := by
  unfold goClean
  cases hs : s.toList with
  | nil => simp
  | cons c cs =>
    simp only
    split
    · intro h
      rw [String.ext_iff] at h
      simp at h
    · split
      · simp
      · rename_i hne
        set out := cleanSegs (c = '/') (pathSegs (c :: cs)) [] with hout
        have hmem : ∀ l ∈ out, l ≠ [] := by
          intro l hl
          refine cleanSegs_ne_nil_mem _ _ [] ?_ (by simp) l hl
          intro x hx
          exact splitDrop_mem_ne_nil _ _ _ x hx
        cases hcase : out with
        | nil => rw [hcase] at hne; simp at hne
        | cons o os =>
          have ho : o ≠ [] := hmem o (by rw [hcase]; simp)
          intro h
          rw [String.ext_iff] at h
          exact joinSegs_ne_nil o os ho (by simpa using h)

theorem goJoin_ne_empty (a b : String) (hb : b ≠ "") : goJoin a b ≠ "" := by
  by_cases ha : a = ""
  · simpa [goJoin, ha, hb] using goClean_ne_empty b
  · simpa [goJoin, ha] using goClean_ne_empty (a ++ "/" ++ b)

/-! ## Helper lemmas -/

theorem append_left_ne_empty (a b : String) (ha : a ≠ "") : a ++ b ≠ "" := by
  intro h
  apply ha
  have hd := congrArg String.data h
  rw [String.data_append] at hd
  rcases List.append_eq_nil.mp hd with ⟨h1, _⟩
  cases a
  simp_all

theorem resolvePath_ne_empty (workingDir arg : String) (h : arg ≠ "") :
    resolvePath workingDir arg ≠ "" := by
  unfold resolvePath
  split
  · exact h
  · exact goJoin_ne_empty workingDir arg h

/-- Once a primary file has been recorded, the editor scan only counts the
remaining accepted arguments and accumulates their line counts. -/
theorem editorScan_primary_set (env : Env) (wd : String) :
    ∀ (args : List String) (fc tl : Nat) (pf pl : String), pf ≠ "" →
      editorScan env wd args fc pf pl tl =
        (fc + (editorAcceptedArgs env wd args).length, pf, pl,
         tl + ((editorAcceptedArgs env wd args).map
            (fun arg => (env.fileLines (resolvePath wd arg)).getD 0)).sum) := by
  intro args
  induction args with
  | nil => intro fc tl pf pl _; simp [editorScan, editorAcceptedArgs]
  | cons arg rest ih =>
    intro fc tl pf pl hpf
    simp only [editorScan]
    by_cases hflag : goHasPrefix arg "-" = true
    · rw [if_pos hflag, ih fc tl pf pl hpf]
      have hacc : editorAcceptedArgs env wd (arg :: rest) = editorAcceptedArgs env wd rest := by
        simp [editorAcceptedArgs, hflag]
      rw [hacc]
    · rw [if_neg hflag]
      by_cases hstat : statAccepts (env.stat (resolvePath wd arg)) = true
      · rw [if_pos hstat]
        simp only [if_neg hpf]
        rw [ih (fc + 1) _ pf pl hpf]
        have hacc : editorAcceptedArgs env wd (arg :: rest) =
            arg :: editorAcceptedArgs env wd rest := by
          simp [editorAcceptedArgs, hflag, hstat]
        rw [hacc]
        simp only [List.length_cons, List.map_cons, List.sum_cons, Prod.mk.injEq]
        cases hfl : env.fileLines (resolvePath wd arg) <;>
          simp [hfl, Nat.add_assoc, Nat.add_comm, Nat.add_left_comm]
      · rw [if_neg hstat, ih fc tl pf pl hpf]
        have hacc : editorAcceptedArgs env wd (arg :: rest) =
            editorAcceptedArgs env wd rest := by
          simp [editorAcceptedArgs, hflag, hstat]
        rw [hacc]

/-- The editor scan, started from the zero accumulators of
`handleEditorCommandSingle`, computes: the number of accepted arguments, the
first accepted resolved path and its language, and the sum of the readable
line counts of all accepted files. -/
theorem editorScan_from_start (env : Env) (wd : String) :
    ∀ (args : List String), (∀ x ∈ args, x ≠ "") →
      editorScan env wd args 0 "" "" 0 =
        match editorAcceptedArgs env wd args with
        | [] => (0, "", "", 0)
        | a₀ :: acc =>
          ((a₀ :: acc).length, resolvePath wd a₀, detectLanguage (resolvePath wd a₀),
           ((a₀ :: acc).map (fun arg => (env.fileLines (resolvePath wd arg)).getD 0)).sum) := by
  intro args
  induction args with
  | nil => intro _; simp [editorScan, editorAcceptedArgs]
  | cons arg rest ih =>
    intro hne
    have harg : arg ≠ "" := hne arg (by simp)
    have hrest : ∀ x ∈ rest, x ≠ "" := fun x hx => hne x (List.mem_cons_of_mem _ hx)
    by_cases hflag : goHasPrefix arg "-" = true
    · have hacc : editorAcceptedArgs env wd (arg :: rest) = editorAcceptedArgs env wd rest := by
        simp [editorAcceptedArgs, hflag]
      simp only [editorScan]
      rw [if_pos hflag, hacc, ih hrest]
    · by_cases hstat : statAccepts (env.stat (resolvePath wd arg)) = true
      · have hacc : editorAcceptedArgs env wd (arg :: rest) =
            arg :: editorAcceptedArgs env wd rest := by
          simp [editorAcceptedArgs, hflag, hstat]
        rw [hacc]
        simp only [editorScan]
        rw [if_neg hflag, if_pos hstat]
        simp only [if_true]
        rw [editorScan_primary_set env wd rest 1 _ _ _
          (resolvePath_ne_empty wd arg harg)]
        simp only [List.length_cons, List.map_cons, List.sum_cons, Prod.mk.injEq]
        cases hfl : env.fileLines (resolvePath wd arg) <;>
          simp [hfl, Nat.add_assoc, Nat.add_comm, Nat.add_left_comm]
      · have hacc : editorAcceptedArgs env wd (arg :: rest) = editorAcceptedArgs env wd rest := by
          simp [editorAcceptedArgs, hflag, hstat]
        rw [hacc]
        simp only [editorScan]
        rw [if_neg hflag, if_neg hstat]
        exact ih hrest

/-- The git aggregation loop sums additions, deletions and readable line
counts over the changed files. -/
theorem gitAggregate_spec (env : Env) (wd : String) :
    ∀ (changes : List GitFileChange) (ta td : Int) (tl : Nat),
      gitAggregate env wd changes ta td tl =
        (ta + (changes.map (fun ch => ch.lineAdditions)).sum,
         td + (changes.map (fun ch => ch.lineDeletions)).sum,
         tl + (changes.map
            (fun ch => (env.fileLines (goJoin wd ch.filePath)).getD 0)).sum) := by
  intro changes
  induction changes with
  | nil => intro ta td tl; simp [gitAggregate]
  | cons ch rest ih =>
    intro ta td tl
    simp only [gitAggregate, List.map_cons, List.sum_cons]
    cases hfl : env.fileLines (goJoin wd ch.filePath) <;>
      · rw [ih]
        simp only [Prod.mk.injEq, Option.getD_none, Option.getD_some]
        exact ⟨by ring, by ring, by ring⟩

/-- Every activity built by `handleGitCommandSingle` is an App activity with
category `"coding"` and a nonempty entity. -/
theorem handleGit_shape (cfg : Config) (env : Env) (now : Int) (fields : List String)
    (wd : String) :
    (handleGitCommandSingle cfg env now fields wd).category = "coding" ∧
    (handleGitCommandSingle cfg env now fields wd).entity ≠ "" ∧
    (handleGitCommandSingle cfg env now fields wd).entityType = .app := by
  rcases fields with _ | ⟨t, _ | ⟨sub, rest⟩⟩
  · exact ⟨rfl, (by decide : ("git" : String) ≠ ""), rfl⟩
  · exact ⟨rfl, (by decide : ("git" : String) ≠ ""), rfl⟩
  · have hne : "git " ++ sub ≠ "" := append_left_ne_empty "git " sub (by decide)
    simp only [handleGitCommandSingle]
    split
    · exact ⟨rfl, hne, rfl⟩
    · split
      · exact ⟨rfl, hne, rfl⟩
      · exact ⟨rfl, hne, rfl⟩

/-- The entity built by `handleGitCommandSingle` for a command with a
subcommand is always the privacy-safe `"git <subcommand>"`. -/
theorem handleGit_entity (cfg : Config) (env : Env) (now : Int) (t sub : String)
    (rest : List String) (wd : String) :
    (handleGitCommandSingle cfg env now (t :: sub :: rest) wd).entity = "git " ++ sub := by
  simp only [handleGitCommandSingle]
  split
  · rfl
  · split <;> rfl

/-- The `codingApps` categories reachable from the dispatcher (every key but
`"git"`, which is intercepted by the git branch first) are `"coding"` and
`"building"`. -/
theorem lookupCodingApp_category (k v : String) (h : lookupCodingApp k = some v)
    (hk : k ≠ "git") : v = "coding" ∨ v = "building" := by
  simp only [lookupCodingApp, codingApps, List.lookup] at h
  repeat' split at h
  all_goals simp_all

/-- Dispatch: a command whose program name is `git` (and hence not an
editor) is classified by `handleGitCommandSingle`. -/
theorem parse_git_dispatch (cfg : Config) (env : Env) (now : Int) (cmd wd f0 : String)
    (rest : List String) (hf : goFields cmd = f0 :: rest) (hb : goBase f0 = "git") :
    parseCommandToSingleActivity cfg env now cmd wd =
      some (handleGitCommandSingle cfg env now (f0 :: rest) wd) := by
  simp [parseCommandToSingleActivity, hf, hb, show isEditor "git" = false by decide]

/-- Dispatch: an editor command is classified by
`handleEditorCommandSingle`. -/
theorem parse_editor_dispatch (cfg : Config) (env : Env) (now : Int) (cmd wd f0 : String)
    (rest : List String) (hf : goFields cmd = f0 :: rest)
    (hEd : isEditor (goBase f0) = true) :
    parseCommandToSingleActivity cfg env now cmd wd =
      some (handleEditorCommandSingle cfg env now f0 rest wd) := by
  simp [parseCommandToSingleActivity, hf, hEd]

/-- Dispatch: a build/test command (not an editor, not git) is classified by
`handleBuildTestCommandSingle`. -/
theorem parse_buildtest_dispatch (cfg : Config) (env : Env) (now : Int) (cmd wd f0 : String)
    (rest : List String) (hf : goFields cmd = f0 :: rest)
    (hEd : isEditor (goBase f0) = false) (hGit : goBase f0 ≠ "git")
    (hBt : isBuildTestCommand (goBase f0) = true) :
    parseCommandToSingleActivity cfg env now cmd wd =
      handleBuildTestCommandSingle cfg env now (f0 :: rest) wd := by
  simp [parseCommandToSingleActivity, hf, hEd, hGit, hBt]

/-! ## Claim theorems -/

/-- C1: For every activity and gate state, `shouldSendHeartbeat` is true iff
the activity is a write, or its entity differs from the last sent entity, or
at least the fixed two-minute `WakaTimeInterval` has elapsed since the last
sent time; the conditions are tried in that order with the first true one
winning, a same-entity non-write resend within the interval is skipped, and
after a successful send a same-entity non-write activity is sent again
exactly when the interval has elapsed since the sent activity's timestamp. -/
theorem shouldSendHeartbeat_rule :
    (∀ (s : GateState) (now : Int) (a : Activity),
        shouldSendHeartbeat s now a = true ↔
          a.isWrite = true ∨ a.entity ≠ s.lastSentFile ∨
            wakaTimeInterval ≤ now - s.lastSentTime)
    ∧ wakaTimeInterval = 2 * minute
    ∧ (∀ (s : GateState) (now : Int) (a : Activity),
        a.isWrite = false → a.entity = s.lastSentFile →
        now - s.lastSentTime < wakaTimeInterval →
        shouldSendHeartbeat s now a = false)
    ∧ (∀ (s : GateState) (now now₂ : Int) (a b : Activity),
        shouldSendHeartbeat s now a = true →
        b.isWrite = false → b.entity = a.entity →
        (shouldSendHeartbeat (sendActivity s now true true a).1 now₂ b = true ↔
          wakaTimeInterval ≤ now₂ - a.timestamp)) := by
  refine ⟨?_, rfl, ?_, ?_⟩
  · intro s now a
    by_cases hw : a.isWrite = true <;> by_cases he : a.entity = s.lastSentFile <;>
      simp [shouldSendHeartbeat, hw, he]
  · intro s now a hw he hlt
    simp [shouldSendHeartbeat, hw, he, not_le.mpr hlt]
  · intro s now now₂ a b hsend hbw hbe
    have hstate : (sendActivity s now true true a).1 =
        { lastSentTime := a.timestamp, lastSentFile := a.entity } := by
      simp [sendActivity, hsend]
    rw [hstate]
    simp [shouldSendHeartbeat, hbw, hbe]

/-- Witness for C1: a non-write resend of the same entity 30 seconds after
the last send is skipped. -/
theorem shouldSendHeartbeat_rule_witness :
    shouldSendHeartbeat { lastSentTime := 0, lastSentFile := "/f" } (30 * second)
      { entity := "/f", entityType := .file, category := "coding" } = false :=
  shouldSendHeartbeat_rule.2.2.1 _ _ _ rfl rfl (by decide)

/-- C2: `sendActivity` leaves the gate state unchanged on a gate skip, on an
`EnsureInstalled` failure and on a `SendHeartbeat` failure; only on a
successful forward does it set the state to the activity's entity and
timestamp. -/
theorem sendActivity_state_frame :
    ∀ (s : GateState) (now : Int) (installOk sendOk : Bool) (a : Activity),
      (shouldSendHeartbeat s now a = false →
        sendActivity s now installOk sendOk a = (s, none, false))
      ∧ ((sendActivity s now installOk sendOk a).2.1 ≠ none →
        (sendActivity s now installOk sendOk a).1 = s)
      ∧ (shouldSendHeartbeat s now a = true →
        (sendActivity s now installOk sendOk a).2.1 = none →
        (sendActivity s now installOk sendOk a).1 =
          { lastSentTime := a.timestamp, lastSentFile := a.entity }) := by
  intro s now installOk sendOk a
  cases hs : shouldSendHeartbeat s now a <;> cases installOk <;> cases sendOk <;>
    simp [sendActivity, hs]

/-- Witness for C2: a successful forward records the activity's entity and
timestamp in the gate state. -/
theorem sendActivity_state_frame_witness :
    (sendActivity initialGateState 0 true true
        { entity := "/f", entityType := .file, category := "coding", timestamp := 7 }).1 =
      { lastSentTime := 7, lastSentFile := "/f" } :=
  (sendActivity_state_frame initialGateState 0 true true
      { entity := "/f", entityType := .file, category := "coding", timestamp := 7 }).2.2
    (by decide) (by decide)

/-- C10: `Monitor.ProcessCommand` on a command shorter than the configured
minimum command time returns nil success, leaves the gate state unchanged and
invokes neither the classifier's downstream send path nor the external tool;
the default minimum is 2 seconds. -/
theorem processCommand_min_duration :
    (∀ (cfg : Config) (env : Env) (now : Int) (installOk sendOk : Bool)
        (command : String) (duration : Int) (workingDir : String) (s : GateState),
        duration < cfg.minCommandTime →
        processCommand cfg env now installOk sendOk command duration workingDir s =
          (s, none, false))
    ∧ defaultConfig.minCommandTime = 2 * second := by
  refine ⟨?_, rfl⟩
  intro cfg env now installOk sendOk command duration workingDir s h
  simp [processCommand, h]

/-- Witness for C10: a 1-second `vim main.go` leaves a fresh tracker's state
untouched and sends nothing. -/
theorem processCommand_min_duration_witness :
    processCommand defaultConfig envAllMissing 0 true true "vim main.go" second "/tmp"
      initialGateState = (initialGateState, none, false) :=
  processCommand_min_duration.1 defaultConfig envAllMissing 0 true true "vim main.go"
    second "/tmp" initialGateState (by decide)

/-- C8: Any two git commands with the same subcommand are classified to
activities with the identical entity string `"git <subcommand>"`, regardless
of all further arguments, working directories and environments — no token
beyond the subcommand reaches the entity. -/
theorem git_entity_privacy (cfg₁ cfg₂ : Config) (env₁ env₂ : Env) (now₁ now₂ : Int)
    (cmd₁ cmd₂ wd₁ wd₂ t₁ t₂ sub : String) (rest₁ rest₂ : List String)
    (h₁ : goFields cmd₁ = t₁ :: sub :: rest₁) (h₂ : goFields cmd₂ = t₂ :: sub :: rest₂)
    (hb₁ : goBase t₁ = "git") (hb₂ : goBase t₂ = "git") :
    ∃ a₁ a₂,
      parseCommandToSingleActivity cfg₁ env₁ now₁ cmd₁ wd₁ = some a₁ ∧
      parseCommandToSingleActivity cfg₂ env₂ now₂ cmd₂ wd₂ = some a₂ ∧
      a₁.entity = "git " ++ sub ∧ a₂.entity = "git " ++ sub ∧ a₁.entity = a₂.entity := by
  refine ⟨_, _, parse_git_dispatch cfg₁ env₁ now₁ cmd₁ wd₁ t₁ _ h₁ hb₁,
    parse_git_dispatch cfg₂ env₂ now₂ cmd₂ wd₂ t₂ _ h₂ hb₂, ?_, ?_, ?_⟩ <;>
    simp [handleGit_entity]

/-- Witness for C8: two git commits with different argument tails and
different telemetry-relevant contexts produce the same entity. -/
theorem git_entity_privacy_witness :
    ∃ a₁ a₂,
      parseCommandToSingleActivity defaultConfig envAllMissing 0
          "git commit -m secret" "/a" = some a₁ ∧
      parseCommandToSingleActivity cfgOverride envGitOne 5
          "git commit --amend -m other" "/b" = some a₂ ∧
      a₁.entity = "git " ++ "commit" ∧ a₂.entity = "git " ++ "commit" ∧
      a₁.entity = a₂.entity :=
  git_entity_privacy defaultConfig cfgOverride envAllMissing envGitOne 0 5
    "git commit -m secret" "git commit --amend -m other" "/a" "/b" "git" "git" "commit"
    ["-m", "secret"] ["--amend", "-m", "other"] (by decide) (by decide) (by decide)
    (by decide)

/-- The `detectProject` loop finds the first directory of the visited chain
holding a project marker. -/
theorem detectProjectLoop_eq_find (env : Env) :
    ∀ (fuel : Nat) (dir : String),
      detectProjectLoop env fuel dir =
        ((ancestorChain fuel dir).find? (hasProjectMarker env)).map goBase := by
  intro fuel
  induction fuel with
  | zero => intro dir; simp [detectProjectLoop, ancestorChain]
  | succ fuel ih =>
    intro dir
    simp only [detectProjectLoop, ancestorChain]
    by_cases hm : hasProjectMarker env dir
    · simp [hm, List.find?]
    · by_cases hfix : goDir dir = dir
      · simp [hm, hfix, List.find?]
      · simp only [if_neg hfix, if_neg hm]
        rw [ih (goDir dir)]
        simp [List.find?_cons, hm]

/-- C5: A git command with a write subcommand (commit, push, merge, rebase)
is classified to a single App activity with entity `"git <subcommand>"` and
`is_write = true`, and when enumeration of the files changed in the most
recent commit succeeds and finds files, the line additions, deletions and
line counts are summed over all changed files into that one activity; a read
subcommand (status, log, diff, show) yields an App activity with
`is_write = false`. -/
theorem handleGit_write_read_spec (cfg : Config) (env : Env) (now : Int)
    (cmd wd f0 sub : String) (rest : List String)
    (hf : goFields cmd = f0 :: sub :: rest) (hb : goBase f0 = "git") :
    (sub = "commit" ∨ sub = "push" ∨ sub = "merge" ∨ sub = "rebase" →
      ∃ a, parseCommandToSingleActivity cfg env now cmd wd = some a ∧
        a.entity = "git " ++ sub ∧ a.entityType = .app ∧ a.isWrite = true ∧
        (∀ changes, env.gitChangedFiles wd = some changes → changes ≠ [] →
          a.lineAdditions = some (changes.map (fun ch => ch.lineAdditions)).sum ∧
          a.lineDeletions = some (changes.map (fun ch => ch.lineDeletions)).sum ∧
          a.lines = some (changes.map
            (fun ch => (env.fileLines (goJoin wd ch.filePath)).getD 0)).sum))
    ∧ (sub = "status" ∨ sub = "log" ∨ sub = "diff" ∨ sub = "show" →
      ∃ a, parseCommandToSingleActivity cfg env now cmd wd = some a ∧
        a.entity = "git " ++ sub ∧ a.entityType = .app ∧ a.isWrite = false) := by
  rw [parse_git_dispatch cfg env now cmd wd f0 (sub :: rest) hf hb]
  constructor
  · rintro (rfl | rfl | rfl | rfl) <;>
    · refine ⟨_, rfl, ?_, ?_, ?_, ?_⟩
      · simp [handleGitCommandSingle]
      · simp [handleGitCommandSingle]
      · simp [handleGitCommandSingle]
      · intro changes hch hne
        have hlen : changes.length > 0 := List.length_pos.mpr hne
        simp [handleGitCommandSingle, hch, hlen, gitAggregate_spec]
  · rintro (rfl | rfl | rfl | rfl) <;>
    · refine ⟨_, rfl, ?_, ?_, ?_⟩ <;> simp [handleGitCommandSingle]

/-- Witness for C5: `git commit -m x` with one changed file of 5 added and 2
deleted lines yields the single aggregated `git commit` write activity. -/
theorem handleGit_write_read_spec_witness :
    ∃ a, parseCommandToSingleActivity cfgOverride envGitOne 0 "git commit -m x" "/w" =
        some a ∧
      a.entity = "git commit" ∧ a.entityType = .app ∧ a.isWrite = true ∧
      a.lineAdditions = some 5 ∧ a.lineDeletions = some 2 := by
  obtain ⟨a, ha, hent, htyp, hw, hagg⟩ :=
    (handleGit_write_read_spec cfgOverride envGitOne 0 "git commit -m x" "/w" "git"
        "commit" ["-m", "x"] (by decide) (by decide)).1 (Or.inl rfl)
  obtain ⟨hadd, hdel, _⟩ :=
    hagg [{ filePath := "f.go", lineAdditions := 5, lineDeletions := 2 }] rfl (by decide)
  exact ⟨a, ha, by simpa using hent, htyp, hw, by simpa using hadd, by simpa using hdel⟩

/-- Counterexample for C6: the claim says the entity of a build/test activity
is `"<program> <subcommand>"` with the program name path-stripped; but for
`/usr/bin/npm test` the code builds the entity from the first token verbatim,
yielding `"/usr/bin/npm test"`, not `"npm test"`. -/
theorem buildtest_entity_counterexample :
    parseCommandToSingleActivity cfgOverride envAllMissing 0 "/usr/bin/npm test" "/w" =
      some { entity := "/usr/bin/npm test", entityType := .app, category := "debugging",
             project := "p" } ∧
    goBase "/usr/bin/npm" = "npm" ∧ isBuildTestCommand "npm" = true ∧
    ("/usr/bin/npm test" : String) ≠ "npm test" := by
  refine ⟨by decide, by decide, by decide, by decide⟩

/-- C6 (amended): For a command whose program name (base name of the first
token) is in the build/test tool set, the classifier returns an App activity
whose entity is built from the first token verbatim — `"<token> <subcommand>"`
when a second token exists, the bare first token otherwise (these coincide
with the claim's `"<program> <subcommand>"` only when the first token carries
no path prefix) — with category `"debugging"` for test keywords,
`"building"` for build keywords, and `"coding"` otherwise. -/
theorem buildTest_entity_category (cfg : Config) (env : Env) (now : Int)
    (cmd wd f0 : String) (rest : List String)
    (hf : goFields cmd = f0 :: rest) (hEd : isEditor (goBase f0) = false)
    (hGit : goBase f0 ≠ "git") (hBt : isBuildTestCommand (goBase f0) = true) :
    ∃ a, parseCommandToSingleActivity cfg env now cmd wd = some a ∧
      a.entityType = .app ∧
      a.entity = (match rest with | [] => f0 | s :: _ => f0 ++ " " ++ s) ∧
      a.category = (match rest with
        | [] => "coding"
        | s :: _ =>
          if isTestCommand s then "debugging"
          else if isBuildCommand s then "building"
          else "coding") := by
  rw [parse_buildtest_dispatch cfg env now cmd wd f0 rest hf hEd hGit hBt]
  cases rest with
  | nil =>
    refine ⟨_, rfl, rfl, ?_, ?_⟩ <;> simp [handleBuildTestCommandSingle] <;> decide
  | cons s rest' =>
    have hs : s ≠ "" :=
      goFields_mem_ne_empty cmd s (hf ▸ List.mem_cons_of_mem _ (List.mem_cons_self _ _))
    refine ⟨_, rfl, rfl, ?_, ?_⟩ <;> simp [handleBuildTestCommandSingle, hs]

/-- Witness for C6 (amended): `npm install` is a building App activity with
entity `"npm install"`. -/
theorem buildTest_entity_category_witness :
    ∃ a, parseCommandToSingleActivity defaultConfig envAllMissing 0 "npm install" "/w" =
        some a ∧
      a.entityType = .app ∧ a.entity = "npm install" ∧ a.category = "building" := by
  obtain ⟨a, ha, htyp, hent, hcat⟩ :=
    buildTest_entity_category defaultConfig envAllMissing 0 "npm install" "/w" "npm"
      ["install"] (by decide) (by decide) (by decide) (by decide)
  refine ⟨a, ha, htyp, ?_, ?_⟩
  · rw [hent]; decide
  · rw [hcat]; decide

/-- C7: `detectProject` returns the configured override unconditionally when
one is set; otherwise it walks from the input path (from its parent directory
when the input is not a directory) up the ancestor chain and returns the
basename of the first directory holding a project marker, falling back to the
basename of the original input when no marker is found; the result is never
the empty string for a non-empty input. -/
theorem detectProject_walk_spec (cfg : Config) (env : Env) (path : String)
    (hne : path ≠ "") :
    (cfg.project ≠ "" → detectProject cfg env path = cfg.project) ∧
    detectProject cfg env path ≠ "" ∧
    (cfg.project = "" →
      detectProject cfg env path =
        (let start := if isDirE env path then path else goDir path
         match (ancestorChain (start.length + 3) start).find? (hasProjectMarker env) with
         | some d => goBase d
         | none => goBase path)) := by
  refine ⟨?_, ?_, ?_⟩
  · intro h
    simp [detectProject, h]
  · by_cases h : cfg.project = ""
    · simp only [detectProject, h, ne_eq, not_true_eq_false, if_false]
      cases hloop : detectProjectLoop env
          ((if isDirE env path then path else goDir path).length + 3)
          (if isDirE env path then path else goDir path) with
      | none => simpa using goBase_ne_empty path
      | some name =>
        rw [detectProjectLoop_eq_find] at hloop
        obtain ⟨d, _, rfl⟩ := Option.map_eq_some'.mp hloop
        simpa using goBase_ne_empty d
    · simp [detectProject, h]
  · intro h
    simp only [detectProject, h, ne_eq, not_true_eq_false, if_false]
    rw [detectProjectLoop_eq_find]
    cases ((ancestorChain ((if isDirE env path then path else goDir path).length + 3)
        (if isDirE env path then path else goDir path)).find? (hasProjectMarker env)) <;>
      simp

/-- Every activity built by `handleEditorCommandSingle` on nonempty argument
tokens has a nonempty entity and category `"coding"`. -/
theorem handleEditor_shape (cfg : Config) (env : Env) (now : Int) (f0 : String)
    (args : List String) (wd : String) (hargs : ∀ x ∈ args, x ≠ "") :
    (handleEditorCommandSingle cfg env now f0 args wd).entity ≠ "" ∧
    (handleEditorCommandSingle cfg env now f0 args wd).category = "coding" := by
  have hscan := editorScan_from_start env wd args hargs
  cases hacc : editorAcceptedArgs env wd args with
  | nil =>
    rw [hacc] at hscan
    exact ⟨by simp [handleEditorCommandSingle, hscan, goBase_ne_empty f0],
      by simp [handleEditorCommandSingle, hscan]⟩
  | cons a₀ acc =>
    rw [hacc] at hscan
    have ha₀ : a₀ ∈ args := by
      have hmem : a₀ ∈ editorAcceptedArgs env wd args := by
        rw [hacc]; exact List.mem_cons_self _ _
      exact List.mem_of_mem_filter hmem
    have hane := resolvePath_ne_empty wd a₀ (hargs a₀ ha₀)
    exact ⟨by simp [handleEditorCommandSingle, hscan, hane],
      by simp [handleEditorCommandSingle, hscan]⟩

/-- Every activity built by `handleBuildTestCommandSingle` from a nonempty
first token has a nonempty entity and a category among `coding`, `building`,
`debugging`. -/
theorem handleBuildTest_shape (cfg : Config) (env : Env) (now : Int) (f0 : String)
    (rest : List String) (wd : String) (a : Activity) (hf0 : f0 ≠ "")
    (h : handleBuildTestCommandSingle cfg env now (f0 :: rest) wd = some a) :
    a.entity ≠ "" ∧
    (a.category = "coding" ∨ a.category = "building" ∨ a.category = "debugging") := by
  simp only [handleBuildTestCommandSingle, Option.some.injEq] at h
  obtain rfl := h.symm
  constructor
  · simp only
    split
    · exact append_left_ne_empty (f0 ++ " ") _ (append_left_ne_empty f0 " " hf0)
    · exact hf0
  · simp only
    split
    · exact Or.inr (Or.inr rfl)
    · split
      · exact Or.inr (Or.inl rfl)
      · exact Or.inl rfl

/-- A nonempty-entity activity always passes a fresh tracker's gate, via the
entity-change rule (the initial `lastSentFile` is empty). -/
theorem first_heartbeat_sent (a : Activity) (h : a.entity ≠ "") (t : Int) :
    shouldSendHeartbeat initialGateState t a = true := by
  by_cases hw : a.isWrite = true <;>
    simp [shouldSendHeartbeat, initialGateState, hw, h]

/-- C3: The classifier returns no activity exactly when the command has no
whitespace-separated tokens; any other command, even one matching no
dispatch rule, reaches the fallback and yields the generic App activity named
by the base name of the first token with category `"coding"`; in particular
`ls -la` yields the `ls` App activity, never none. -/
theorem parse_totality_fallback :
    (∀ (cfg : Config) (env : Env) (now : Int) (command workingDir : String),
        parseCommandToSingleActivity cfg env now command workingDir = none ↔
          goFields command = [])
    ∧ (∀ (cfg : Config) (env : Env) (now : Int) (command workingDir f0 : String)
          (rest : List String),
        goFields command = f0 :: rest →
        isEditor (goBase f0) = false → goBase f0 ≠ "git" →
        isBuildTestCommand (goBase f0) = false →
        lookupCodingApp (goBase f0) = none → parseRemoteConnection command = "" →
        (goBase f0 = "cd" → rest = []) →
        parseCommandToSingleActivity cfg env now command workingDir =
          some { entity := goBase f0, entityType := .app, category := "coding",
                 project := detectProject cfg env workingDir,
                 branch := env.gitBranch workingDir, timestamp := now })
    ∧ parseCommandToSingleActivity defaultConfig envAllMissing 0 "ls -la" "/tmp" =
        some { entity := "ls", entityType := .app, category := "coding",
               project := "tmp" } := by
  refine ⟨?_, ?_, by decide⟩
  · intro cfg env now command workingDir
    constructor
    · intro h
      cases hcmd : goFields command with
      | nil => rfl
      | cons f0 rest =>
        simp only [parseCommandToSingleActivity, hcmd] at h
        repeat' split at h
        all_goals simp_all [handleBuildTestCommandSingle]
    · intro h
      simp [parseCommandToSingleActivity, h]
  · intro cfg env now command workingDir f0 rest hf hEd hGit hBt hLook hRem hCd
    have hcdb : (decide (goBase f0 = "cd") && !rest.isEmpty) = false := by
      by_cases hc : goBase f0 = "cd"
      · simp [hc, hCd hc]
      · simp [hc]
    simp [parseCommandToSingleActivity, hf, hEd, hGit, hBt, hLook, hRem, hcdb]

/-- Witness for C3: a command matching no rule falls through to the
fallback App activity. -/
theorem parse_totality_fallback_witness :
    parseCommandToSingleActivity defaultConfig envAllMissing 0 "whoami" "/tmp" =
      some { entity := "whoami", entityType := .app, category := "coding",
             project := "tmp" } := by
  have h := parse_totality_fallback.2.1 defaultConfig envAllMissing 0 "whoami" "/tmp"
    "whoami" [] (by decide) (by decide) (by decide) (by decide) (by decide) (by decide)
    (fun _ => rfl)
  rw [h]
  decide

/-- Counterexample for C4: the claim accepts an editor file argument that
does not exist when it is a plausibly creatable path; but for
`vim notes.txt` in `/w`, where `os.Stat` of the freely creatable
`/w/notes.txt` fails with not-exist, the code rejects the path — the
acceptance test `err == nil || !os.IsNotExist(err)` is false exactly on
missing files — and returns the App activity for `vim` (not a File activity,
`is_write` false).  The repository's own test pins this behaviour
("vim with non-existing file … Still tracks the app"). -/
theorem editor_missing_file_counterexample :
    parseCommandToSingleActivity cfgOverride envAllMissing 0 "vim notes.txt" "/w" =
      some { entity := "vim", entityType := .app, category := "coding",
             project := "p" } ∧
    envAllMissing.stat (resolvePath "/w" "notes.txt") = .errNotExist ∧
    statAccepts .errNotExist = false := by
  refine ⟨by decide, rfl, rfl⟩

/-- C4 (amended): For an editor command, an argument is accepted iff it is
not a flag and `os.Stat` of its resolved path does not fail with a not-exist
error (so a missing file is rejected; only existing paths and paths with
other stat errors are accepted).  When at least one argument is accepted the
classifier returns a single File activity for the first accepted path with
category `"coding"`, `is_write = true` and the line count aggregated over all
accepted files; when none is accepted it returns the App activity for the
program name. -/
theorem editor_accepted_args_spec (cfg : Config) (env : Env) (now : Int)
    (cmd wd f0 : String) (args : List String)
    (hf : goFields cmd = f0 :: args) (hEd : isEditor (goBase f0) = true) :
    (∀ a₀ acc, editorAcceptedArgs env wd args = a₀ :: acc →
      parseCommandToSingleActivity cfg env now cmd wd = some
        { entity := resolvePath wd a₀, entityType := .file, category := "coding",
          language := detectLanguage (resolvePath wd a₀),
          project := detectProject cfg env (resolvePath wd a₀),
          branch := env.gitBranch (goDir (resolvePath wd a₀)),
          isWrite := true, timestamp := now,
          lines := some (((a₀ :: acc).map
            (fun arg => (env.fileLines (resolvePath wd arg)).getD 0)).sum),
          lineNo := some 1, cursorPos := some 1 })
    ∧ (editorAcceptedArgs env wd args = [] →
      parseCommandToSingleActivity cfg env now cmd wd = some
        { entity := goBase f0, entityType := .app, category := "coding",
          project := detectProject cfg env wd, branch := env.gitBranch wd,
          timestamp := now }) := by
  rw [parse_editor_dispatch cfg env now cmd wd f0 args hf hEd]
  have hargsne : ∀ x ∈ args, x ≠ "" := fun x hx =>
    goFields_mem_ne_empty cmd x (hf ▸ List.mem_cons_of_mem _ hx)
  have hscan := editorScan_from_start env wd args hargsne
  constructor
  · intro a₀ acc hacc
    rw [hacc] at hscan
    simp [handleEditorCommandSingle, hscan]
  · intro hacc
    rw [hacc] at hscan
    simp [handleEditorCommandSingle, hscan]

/-- Witness for C4 (amended): `vim a.go b.go` in `/w`, where only `/w/a.go`
exists (10 lines), yields the File activity for `/w/a.go`. -/
theorem editor_accepted_args_spec_witness :
    parseCommandToSingleActivity cfgOverride envOneFile 0 "vim a.go b.go" "/w" =
      some { entity := "/w/a.go", entityType := .file, category := "coding",
             language := "Go", project := "p", isWrite := true, lines := some 10,
             lineNo := some 1, cursorPos := some 1 } := by
  have h := (editor_accepted_args_spec cfgOverride envOneFile 0 "vim a.go b.go" "/w"
      "vim" ["a.go", "b.go"] (by decide) (by decide)).1 "a.go" [] (by decide)
  rw [h]
  decide

/-- C9: Every activity the classifier returns has a nonempty entity, a
category among `coding`, `building`, `debugging`, `browsing`, and an entity
kind among file, app, domain; consequently the first activity of a fresh
tracker (whose gate starts with an empty `lastSentFile`) always passes the
gate's entity-change rule and is sent. -/
theorem activity_invariants (cfg : Config) (env : Env) (now : Int) (cmd wd : String)
    (a : Activity) (h : parseCommandToSingleActivity cfg env now cmd wd = some a) :
    a.entity ≠ "" ∧
    (a.category = "coding" ∨ a.category = "building" ∨ a.category = "debugging" ∨
      a.category = "browsing") ∧
    (a.entityType = .file ∨ a.entityType = .app ∨ a.entityType = .domain) ∧
    (∀ t : Int, shouldSendHeartbeat initialGateState t a = true) := by
  have hkind : a.entityType = .file ∨ a.entityType = .app ∨ a.entityType = .domain := by
    cases a.entityType <;> simp
  suffices hmain : a.entity ≠ "" ∧
      (a.category = "coding" ∨ a.category = "building" ∨ a.category = "debugging" ∨
        a.category = "browsing") by
    exact ⟨hmain.1, hmain.2, hkind, fun t => first_heartbeat_sent a hmain.1 t⟩
  cases hcmd : goFields cmd with
  | nil => simp [parseCommandToSingleActivity, hcmd] at h
  | cons f0 rest =>
    have hf0 : f0 ≠ "" := goFields_mem_ne_empty cmd f0 (hcmd ▸ List.mem_cons_self _ _)
    have hrestne : ∀ x ∈ rest, x ≠ "" := fun x hx =>
      goFields_mem_ne_empty cmd x (hcmd ▸ List.mem_cons_of_mem _ hx)
    simp only [parseCommandToSingleActivity, hcmd] at h
    split at h
    · -- editor
      obtain rfl := (Option.some.inj h).symm
      obtain ⟨h1, h2⟩ := handleEditor_shape cfg env now f0 rest wd hrestne
      exact ⟨h1, Or.inl h2⟩
    · split at h
      · -- git
        obtain rfl := (Option.some.inj h).symm
        obtain ⟨h1, h2, _⟩ := handleGit_shape cfg env now (f0 :: rest) wd
        exact ⟨h2, Or.inl h1⟩
      · split at h
        · -- build/test tool
          obtain ⟨h1, h2⟩ := handleBuildTest_shape cfg env now f0 rest wd a hf0 h
          refine ⟨h1, ?_⟩
          rcases h2 with hc | hc | hc
          · exact Or.inl hc
          · exact Or.inr (Or.inl hc)
          · exact Or.inr (Or.inr (Or.inl hc))
        · split at h
          · -- coding app
            rename_i category hLook
            obtain rfl := (Option.some.inj h).symm
            rcases lookupCodingApp_category _ _ hLook (by assumption) with hc | hc
            · exact ⟨goBase_ne_empty f0, Or.inl hc⟩
            · exact ⟨goBase_ne_empty f0, Or.inr (Or.inl hc)⟩
          · split at h
            · -- remote connection
              rename_i hdom
              obtain rfl := (Option.some.inj h).symm
              exact ⟨hdom, Or.inl rfl⟩
            · split at h
              · -- cd
                rename_i hcd
                obtain rfl := (Option.some.inj h).symm
                cases hrest : rest with
                | nil =>
                  rw [hrest] at hcd
                  simp at hcd
                | cons r rs =>
                  have hr : r ≠ "" :=
                    hrestne r (by rw [hrest]; exact List.mem_cons_self r rs)
                  exact ⟨resolvePath_ne_empty wd r hr, Or.inr (Or.inr (Or.inr rfl))⟩
              · -- fallback
                obtain rfl := (Option.some.inj h).symm
                exact ⟨goBase_ne_empty f0, Or.inl rfl⟩

/-- Witness for C9: the `cd docs` activity has a nonempty entity, category
`browsing`, File kind, and passes a fresh tracker's gate. -/
theorem activity_invariants_witness :
    ∃ a, parseCommandToSingleActivity defaultConfig envAllMissing 0 "cd docs" "/tmp" =
        some a ∧
      a.entity ≠ "" ∧
      (a.category = "coding" ∨ a.category = "building" ∨ a.category = "debugging" ∨
        a.category = "browsing") ∧
      (a.entityType = .file ∨ a.entityType = .app ∨ a.entityType = .domain) ∧
      (∀ t : Int, shouldSendHeartbeat initialGateState t a = true) := by
  have hp : parseCommandToSingleActivity defaultConfig envAllMissing 0 "cd docs" "/tmp" =
      some { entity := "/tmp/docs", entityType := .file, category := "browsing",
             project := "docs" } := by decide
  exact ⟨_, hp, activity_invariants defaultConfig envAllMissing 0 "cd docs" "/tmp" _ hp⟩

/-- Witness for C7: with no override, the walk from file `/a/b/c.go` finds
the `.git` marker in `/a/b` and returns `"b"`; with an override it returns
the override. -/
theorem detectProject_walk_spec_witness :
    detectProject defaultConfig envMarker "/a/b/c.go" ≠ "" ∧
    detectProject defaultConfig envMarker "/a/b/c.go" =
      (let start := if isDirE envMarker "/a/b/c.go" then "/a/b/c.go"
                    else goDir "/a/b/c.go"
       match (ancestorChain (start.length + 3) start).find? (hasProjectMarker envMarker) with
       | some d => goBase d
       | none => goBase "/a/b/c.go") ∧
    detectProject cfgOverride envMarker "/a/b/c.go" = "p" := by
  refine ⟨(detectProject_walk_spec defaultConfig envMarker "/a/b/c.go" (by decide)).2.1,
    (detectProject_walk_spec defaultConfig envMarker "/a/b/c.go" (by decide)).2.2 rfl,
    (detectProject_walk_spec cfgOverride envMarker "/a/b/c.go" (by decide)).1 (by decide)⟩

end TerminalWakatime
